import Mathlib

/-!
Verification of the news-article analysis pipeline (summarizer, sentiment
analyzer, keyword extractor, validators) against its natural-language
specification.

Texts are modelled as `List Char` (one entry per Unicode code point, matching
Python's `str` indexing).  Python `float` scores are modelled as `ℚ`;
`round(x, 4)` is modelled by `round4` (round half up at the fourth decimal —
the tie-breaking direction of Python's banker rounding differs only on exact
ties, which none of the claims depend on).  The three pretrained models
(sentiment classifier, KeyBERT ranker, KoBART generator) are external
collaborators per the specification; each is modelled as an oracle argument,
with Python exceptions modelled as `Except.error`.
-/

/-! ## Shared Python string primitives -/

/-- One step (from the right) of cutting a string at whitespace characters:
a whitespace character opens a new (so far empty) piece, any other character
is prepended to the current piece. -/
def pysplitStep (c : Char) (acc : List (List Char)) : List (List Char) :=
  if c.isWhitespace then [] :: acc
  else
    match acc with
    | [] => [[c]]
    | w :: ws => (c :: w) :: ws

/-- Python `str.split()` (split on whitespace runs, dropping empty pieces). -/
def pysplit (s : List Char) : List (List Char) :=
  (s.foldr pysplitStep []).filter (fun w => w ≠ [])

/-- Python `' '.join(text.split())`: whitespace normalization used by the
`_preprocess` helpers of both the sentiment and the summarizer service. -/
def normalizeWs (s : List Char) : List Char :=
  List.intercalate [' '] (pysplit s)

/-- Python `str.strip()`. -/
def pystrip (s : List Char) : List Char :=
  ((s.dropWhile Char.isWhitespace).reverse.dropWhile Char.isWhitespace).reverse

/-- A sentence-final character for the splitting regex `(?<=[.!?])\s+`. -/
def sentenceEnd (c : Char) : Bool :=
  c = '.' || c = '!' || c = '?'

/-- Worker for `re.split(r'(?<=[.!?])\s+', text)`: a split happens at every
maximal whitespace run immediately preceded by `.`, `!` or `?`;
the whitespace itself is consumed.  `acc` holds the reversed current piece. -/
def splitSentencesAux : List Char → List Char → List (List Char)
  | [], acc => [acc.reverse]
  | c :: rest, acc =>
    if c.isWhitespace && (match acc with | p :: _ => sentenceEnd p | [] => false) then
      acc.reverse :: splitSentencesAux (rest.dropWhile Char.isWhitespace) []
    else
      splitSentencesAux rest (c :: acc)
termination_by l _ => l.length
decreasing_by
  · exact Nat.lt_succ_of_le ((List.dropWhile_sublist _).length_le)
  · exact Nat.lt_succ_self _

/-- Python `re.split(r'(?<=[.!?])\s+', text)`. -/
def splitSentences (s : List Char) : List (List Char) :=
  splitSentencesAux s []

/-! ## Rounding -/

/-- Model of Python `round(x, 4)` on rationals (round half up at 1/10000).
Stated via `Rat.floor` so that the kernel can evaluate it on literals. -/
def round4 (q : ℚ) : ℚ :=
  ((q * 10000 + 1/2).floor : ℚ) / 10000

theorem round4_eq (q : ℚ) : round4 q = ((⌊q * 10000 + 1/2⌋ : ℤ) : ℚ) / 10000 := by
  rw [round4, Rat.floor_def', Rat.floor_def]

theorem round4_mono {q r : ℚ} (h : q ≤ r) : round4 q ≤ round4 r := by
  rw [round4_eq, round4_eq]
  have : (⌊q * 10000 + 1/2⌋ : ℤ) ≤ ⌊r * 10000 + 1/2⌋ := by
    apply Int.floor_mono; nlinarith
  have h2 : ((⌊q * 10000 + 1/2⌋ : ℤ) : ℚ) ≤ ((⌊r * 10000 + 1/2⌋ : ℤ) : ℚ) := by
    exact_mod_cast this
  linarith

theorem round4_zero : round4 0 = 0 := by
  rw [round4_eq]; norm_num

theorem round4_one : round4 1 = 1 := by
  rw [round4_eq]; norm_num [Int.floor_eq_iff]

theorem round4_nonneg {q : ℚ} (h : 0 ≤ q) : 0 ≤ round4 q := by
  calc (0:ℚ) = round4 0 := round4_zero.symm
    _ ≤ round4 q := round4_mono h

theorem round4_le_one {q : ℚ} (h : q ≤ 1) : round4 q ≤ 1 := by
  calc round4 q ≤ round4 1 := round4_mono h
    _ = 1 := round4_one

theorem round4_le (q : ℚ) : round4 q ≤ q + 1/20000 := by
  rw [round4_eq]
  have h := Int.floor_le (q * 10000 + 1/2)
  have h2 : ((⌊q * 10000 + 1/2⌋ : ℤ) : ℚ) ≤ q * 10000 + 1/2 := h
  linarith

theorem round4_ge (q : ℚ) : q - 1/20000 ≤ round4 q := by
  rw [round4_eq]
  have h := Int.sub_one_lt_floor (q * 10000 + 1/2)
  have h2 : q * 10000 + 1/2 - 1 < ((⌊q * 10000 + 1/2⌋ : ℤ) : ℚ) := h
  linarith

theorem abs_round4_sub (q : ℚ) : |round4 q - q| ≤ 1/20000 := by
  rw [abs_le]
  constructor
  · have := round4_ge q; linarith
  · have := round4_le q; linarith

/-! ## Sentiment service (`src/services/sentiment.py`) -/

namespace SentimentService

/-- Record produced by `SentimentService.analyze`; `scores` is the Python dict
in insertion order. -/
structure SentimentResult where
  label : String
  confidence : ℚ
  scores : List (String × ℚ)
deriving DecidableEq

/-- The classifier pipeline `self.model_loader.sentiment_analyzer`:
given (truncated) text it either raises or returns a list of
`{'label': ..., 'score': ...}` records. -/
def Oracle := List Char → Except Unit (List (String × ℚ))

/-- `LABEL_MAP` (model output label → Korean label). -/
def LABEL_MAP : List (String × String) :=
  [("positive", "긍정"), ("negative", "부정"), ("neutral", "중립"),
   ("LABEL_0", "부정"), ("LABEL_1", "중립"), ("LABEL_2", "긍정")]

/-- Python `LABEL_MAP.get(raw, default)`. -/
def labelMapGet (raw default : String) : String :=
  match LABEL_MAP.lookup raw with
  | some v => v
  | none => default

/-- The record `{label: "중립", confidence: 0.0,
scores: {"긍정": 0.0, "부정": 0.0, "중립": 1.0}}` returned on empty input,
empty model output and on any inference exception. -/
def neutralResult : SentimentResult :=
  ⟨"중립", 0, [("긍정", 0), ("부정", 0), ("중립", 1)]⟩

/-- Python dict assignment `d[k] = v` on an insertion-ordered association
list: update in place if present, else append at the end. -/
def dictSet : List (String × ℚ) → String → ℚ → List (String × ℚ)
  | [], k, v => [(k, v)]
  | (k0, v0) :: rest, k, v =>
    if k0 = k then (k0, v) :: rest else (k0, v0) :: dictSet rest k v

/-- `SentimentService._estimate_scores`: assign `confidence` to the reported
label, then give each remaining dict key `round((1 - confidence) / #others, 4)`.
Mirrors the Python dict semantics: an unknown label is appended as a fourth
key, so `other_labels` then has three entries. -/
def estimate_scores (label : String) (confidence : ℚ) : List (String × ℚ) :=
  let scores := dictSet [("긍정", 0), ("부정", 0), ("중립", 0)] label confidence
  let others := (scores.map Prod.fst).filter (fun l => l ≠ label)
  others.foldl
    (fun sc o => dictSet sc o (round4 ((1 - confidence) / (others.length : ℚ))))
    scores

/-- `SentimentService._preprocess`: `' '.join(text.split())`. -/
def preprocessText (text : List Char) : List Char :=
  normalizeWs text

/-- State of the sentence loop of `_analyze_long_text`:
the `all_scores` dict (fixed keys 긍정 / 부정 / 중립) plus `valid_count`. -/
structure LongState where
  pos : ℚ
  neg : ℚ
  neu : ℚ
  count : ℕ
deriving DecidableEq

/-- `all_scores[label] += score` for a label produced by
`LABEL_MAP.get(raw, "중립")` (hence always one of the three keys). -/
def addScore (st : LongState) (label : String) (score : ℚ) : LongState :=
  if label = "긍정" then { st with pos := st.pos + score }
  else if label = "부정" then { st with neg := st.neg + score }
  else { st with neu := st.neu + score }

/-- One iteration of the sentence loop of `_analyze_long_text`: skip sentences
whose stripped length is < 10, classify `sentence[:512]`, skip failures and
empty result lists, otherwise accumulate the first result's score. -/
def longStep (analyzer : Oracle) (st : LongState) (sentence : List Char) :
    LongState :=
  if (pystrip sentence).length < 10 then st
  else
    match analyzer (sentence.take 512) with
    | .error _ => st
    | .ok [] => st
    | .ok (r :: _) =>
      let label := labelMapGet r.1 "중립"
      { addScore st label r.2 with count := st.count + 1 }

/-- The full sentence loop of `_analyze_long_text`. -/
def longFold (analyzer : Oracle) (sentences : List (List Char)) : LongState :=
  sentences.foldl (longStep analyzer) ⟨0, 0, 0, 0⟩

/-- Python `max(all_scores, key=all_scores.get)` over the dict
`{"긍정": ap, "부정": an, "중립": au}` paired with the chosen value:
iteration order 긍정, 부정, 중립; a later key wins only on a strict increase. -/
def maxLabel (ap an au : ℚ) : String × ℚ :=
  if au > (if an > ap then an else ap) then ("중립", au)
  else if an > ap then ("부정", an)
  else ("긍정", ap)

/-- Python `round(all_scores[key] / valid_count, 4)` for one key. -/
def avgOf (v : ℚ) (count : ℕ) : ℚ :=
  round4 (v / (count : ℚ))

/-- The tail of `_analyze_long_text` after the sentence loop: neutral/zero if
no sentence was classified, otherwise average the accumulated scores, pick
the final label (`max` over the dict), and renormalize when the averaged
scores have a positive sum. -/
def finalizeLong (st : LongState) : SentimentResult :=
  if st.count = 0 then neutralResult
  else
    ⟨(maxLabel (avgOf st.pos st.count) (avgOf st.neg st.count)
        (avgOf st.neu st.count)).1,
     (maxLabel (avgOf st.pos st.count) (avgOf st.neg st.count)
        (avgOf st.neu st.count)).2,
     if avgOf st.pos st.count + avgOf st.neg st.count + avgOf st.neu st.count
         > 0 then
       [("긍정", round4 (avgOf st.pos st.count /
          (avgOf st.pos st.count + avgOf st.neg st.count +
           avgOf st.neu st.count))),
        ("부정", round4 (avgOf st.neg st.count /
          (avgOf st.pos st.count + avgOf st.neg st.count +
           avgOf st.neu st.count))),
        ("중립", round4 (avgOf st.neu st.count /
          (avgOf st.pos st.count + avgOf st.neg st.count +
           avgOf st.neu st.count)))]
     else
       [("긍정", avgOf st.pos st.count), ("부정", avgOf st.neg st.count),
        ("중립", avgOf st.neu st.count)]⟩

/-- `SentimentService._analyze_long_text` (applied after preprocessing). -/
def analyze_long_text (analyzer : Oracle) (text : List Char) : SentimentResult :=
  finalizeLong (longFold analyzer (splitSentences text))

/-- `SentimentService.analyze`.  `max_length = 512`; inference exceptions are
caught and mapped to `neutralResult`. -/
def analyze (analyzer : Oracle) (text : List Char) : SentimentResult :=
  if text = [] ∨ (pystrip text).length = 0 then neutralResult
  else if 512 * 2 < (preprocessText text).length then
    analyze_long_text analyzer (preprocessText text)
  else
    match analyzer ((preprocessText text).take 512) with
    | .error _ => neutralResult
    | .ok [] => neutralResult
    | .ok (r :: _) =>
      ⟨labelMapGet r.1 r.1, round4 r.2,
       estimate_scores (labelMapGet r.1 r.1) r.2⟩

end SentimentService

/-! ## Keyword service (`src/services/keywords.py`) -/

namespace KeywordService

/-- One extracted keyword with its importance score. -/
structure KeywordResult where
  keyword : List Char
  score : ℚ
deriving DecidableEq

/-- `STOPWORDS` (a Python set; only membership and substring tests are used,
so the order below is irrelevant). -/
def STOPWORDS : List (List Char) :=
  ["있다".toList, "하다".toList, "되다".toList, "이다".toList, "않다".toList,
   "없다".toList, "같다".toList, "보다".toList,
   "대한".toList, "통해".toList, "위해".toList, "따라".toList, "관련".toList,
   "대해".toList, "가장".toList, "또한".toList,
   "그리고".toList, "하지만".toList, "그러나".toList, "따라서".toList,
   "그래서".toList, "때문에".toList,
   "것으로".toList, "것이다".toList, "것이며".toList, "수도".toList,
   "가능".toList, "있는".toList, "하는".toList,
   "이번".toList, "지난".toList, "오늘".toList, "내일".toList, "어제".toList,
   "올해".toList, "작년".toList, "내년".toList]

/-- `KeywordService._is_valid_keyword`: length ≥ 2, no stop-word occurs as a
substring, not purely numeric. -/
def is_valid_keyword (keyword : List Char) : Bool :=
  if keyword.length < 2 then false
  else if STOPWORDS.any (fun sw => decide (List.IsInfix sw keyword)) then false
  else if keyword ≠ [] && keyword.all Char.isDigit then false
  else true

/-- The KeyBERT call inside `_extract_with_keybert` (model load + ranking):
given the text and `top_n` it either raises or returns candidate
`(keyword, score)` pairs. -/
def Oracle := List Char → ℕ → Except Unit (List (List Char × ℚ))

/-- The result-collection loop of `_extract_with_keybert`: keep valid
candidates (score rounded to 4 decimals) and stop as soon as the result list
has reached `top_k` entries.  `c` is the number of entries collected so far. -/
def collectValid : List (List Char × ℚ) → ℕ → ℕ → List KeywordResult
  | [], _, _ => []
  | (kw, sc) :: rest, top_k, c =>
    if is_valid_keyword kw then
      if top_k ≤ c + 1 then [⟨kw, round4 sc⟩]
      else ⟨kw, round4 sc⟩ :: collectValid rest top_k (c + 1)
    else collectValid rest top_k c

/-- `KeywordService._extract_with_keybert`: ask KeyBERT for `top_k * 2`
candidates, then filter and truncate.  A raised exception propagates. -/
def extract_with_keybert (keybert : Oracle) (text : List Char) (top_k : ℕ) :
    Except Unit (List KeywordResult) :=
  match keybert text (top_k * 2) with
  | .error e => .error e
  | .ok keywords => .ok (collectValid keywords top_k 0)

/-- A Korean syllable, i.e. a character matched by `[가-힣]`. -/
def isKoreanSyllable (c : Char) : Bool :=
  '가' ≤ c && c ≤ '힣'

/-- `re.findall(r'[가-힣]{2,}', text)`: maximal runs of Korean syllables,
keeping only runs of length ≥ 2. -/
def koreanRuns (s : List Char) : List (List Char) :=
  (s.foldr
    (fun c acc =>
      if isKoreanSyllable c then
        match acc with
        | [] => [[c]]
        | w :: ws => (c :: w) :: ws
      else [] :: acc)
    []).filter (fun w => 2 ≤ w.length)

/-- `word_freq[word] = word_freq.get(word, 0) + 1` on an insertion-ordered
association list. -/
def bumpFreq : List (List Char × ℕ) → List Char → List (List Char × ℕ)
  | [], w => [(w, 1)]
  | (k, v) :: rest, w =>
    if k = w then (k, v + 1) :: rest else (k, v) :: bumpFreq rest w

/-- One iteration of the frequency-counting loop of
`_extract_with_frequency`: count `word` unless it is a stop-word (the
length-≥-2 test is re-checked as in the source, though every extracted run
already satisfies it). -/
def freqStep (m : List (List Char × ℕ)) (word : List Char) :
    List (List Char × ℕ) :=
  if word ∉ STOPWORDS ∧ 2 ≤ word.length then bumpFreq m word else m

/-- The frequency-counting loop of `_extract_with_frequency`. -/
def wordFreqOf (text : List Char) : List (List Char × ℕ) :=
  (koreanRuns text).foldl freqStep []

/-- Stable insertion of an entry into a list sorted by non-increasing
frequency (the comparison of
`sorted(word_freq.items(), key=lambda x: x[1], reverse=True)`). -/
def insertDesc (x : List Char × ℕ) : List (List Char × ℕ) → List (List Char × ℕ)
  | [] => [x]
  | y :: ys => if x.2 ≤ y.2 then y :: insertDesc x ys else x :: y :: ys

/-- `sorted(..., key=lambda x: x[1], reverse=True)`: stable sort by
non-increasing frequency. -/
def sortDesc : List (List Char × ℕ) → List (List Char × ℕ)
  | [] => []
  | x :: xs => insertDesc x (sortDesc xs)

/-- `max_freq = sorted_words[0][1] if sorted_words else 1`. -/
def maxFreqOf (sorted_words : List (List Char × ℕ)) : ℕ :=
  match sorted_words with
  | [] => 1
  | w :: _ => w.2

/-- `KeywordService._extract_with_frequency` (frequency-based fallback). -/
def extract_with_frequency (text : List Char) (top_k : ℕ) : List KeywordResult :=
  ((sortDesc (wordFreqOf text)).take top_k).map
    (fun p =>
      ⟨p.1, round4 ((p.2 : ℚ) / (maxFreqOf (sortDesc (wordFreqOf text)) : ℚ))⟩)

/-- `KeywordService.extract`: empty input gives `[]`; otherwise try KeyBERT
and fall back to the frequency method if it raises. -/
def extract (keybert : Oracle) (text : List Char) (top_k : ℕ) :
    List KeywordResult :=
  if text = [] ∨ (pystrip text).length = 0 then []
  else
    match extract_with_keybert keybert text top_k with
    | .ok results => results
    | .error _ => extract_with_frequency text top_k

end KeywordService

/-! ## Summarizer service (`src/services/summarizer.py`) -/

namespace SummarizerService

/-- Record produced by `SummarizerService.summarize`. -/
structure SummaryResult where
  summary : List Char
  original_length : ℕ
  summary_length : ℕ
deriving DecidableEq

/-- The tokenize / generate / decode pipeline of `summarize` (tokenizer with
truncation at 1024 input tokens, beam search bounded by `[min_len, max_len]`,
decoding): an external model, taking the preprocessed text and the two output
bounds, that either raises (error message attached) or returns the decoded
summary. -/
def Oracle := List Char → ℕ → ℕ → Except (List Char) (List Char)

/-- Python `a or b` for an optional numeric setting (`None` and `0` are both
falsy, so they select the default). -/
def pyOrDefault (v : Option ℕ) (d : ℕ) : ℕ :=
  match v with
  | some n => if n = 0 then d else n
  | none => d

/-- `summary.endswith(('.', '다', '요', '!'))` — all four suffixes are single
characters, so this is a test on the last character. -/
def endsWithClosing (s : List Char) : Bool :=
  match s.getLast? with
  | some c => ['.', '다', '요', '!'].contains c
  | none => false

/-- `SummarizerService._postprocess`: strip, then append `'.'` unless the
summary already ends with `'.'`, `'다'`, `'요'` or `'!'`. -/
def postprocess (summary : List Char) : List Char :=
  if pystrip summary ≠ [] ∧ ¬ endsWithClosing (pystrip summary) then
    pystrip summary ++ ['.']
  else pystrip summary

/-- The message of the empty-input record of `summarize`. -/
def emptyMessage : List Char := "요약할 텍스트가 없습니다.".toList

/-- `SummarizerService.summarize` (`max_output_length = 150`,
`min_output_length = 50`); generation failures are reported in-band. -/
def summarize (gen : Oracle) (text : List Char)
    (max_length min_length : Option ℕ) : SummaryResult :=
  if text = [] ∨ (pystrip text).length = 0 then ⟨emptyMessage, 0, 0⟩
  else
    let max_len := pyOrDefault max_length 150
    let min_len := pyOrDefault min_length 50
    let original_length := text.length
    match gen (normalizeWs text) max_len min_len with
    | .ok decoded =>
      let summary := postprocess decoded
      ⟨summary, original_length, summary.length⟩
    | .error e =>
      ⟨"요약 생성 중 오류가 발생했습니다: ".toList ++ e, original_length, 0⟩

end SummarizerService

/-! ## Validators (`src/utils/validators.py`) -/

namespace URLValidator

/-- `URLValidator.sanitize_url`: strip, then prepend `https://` unless the
URL already starts with `http://` or `https://`. -/
def sanitize_url (url : List Char) : List Char :=
  if ("http://".toList).isPrefixOf (pystrip url)
      || ("https://".toList).isPrefixOf (pystrip url) then
    pystrip url
  else "https://".toList ++ pystrip url

end URLValidator

namespace TextValidator

def MIN_TEXT_LENGTH : ℕ := 50

def MAX_TEXT_LENGTH : ℕ := 50000

/-- Message returned for falsy (empty) input. -/
def emptyMsg : List Char := "텍스트가 비어있습니다.".toList

/-- Message returned when the stripped text is shorter than 50 characters. -/
def tooShortMsg : List Char := "텍스트가 너무 짧습니다. (최소 50자)".toList

/-- Message returned when the stripped text is longer than 50000 characters. -/
def tooLongMsg : List Char := "텍스트가 너무 깁니다. (최대 50000자)".toList

/-- `TextValidator.is_valid_article_text`: reject empty input, then length
bounds on the stripped text, then a Korean-character-ratio check. -/
def is_valid_article_text (text : List Char) : Bool × List Char :=
  if text = [] then (false, emptyMsg)
  else
    let t := pystrip text
    if t.length < MIN_TEXT_LENGTH then (false, tooShortMsg)
    else if MAX_TEXT_LENGTH < t.length then (false, tooLongMsg)
    else
      let korean_chars := (t.filter KeywordService.isKoreanSyllable).length
      if (korean_chars : ℚ) / (t.length : ℚ) < 1/10 then
        (false, "한국어 콘텐츠가 거의 없습니다.".toList)
      else (true, "유효한 텍스트입니다.".toList)

end TextValidator

/-! ## Properties of the string primitives -/

theorem head?_dropWhile_not {p : Char → Bool} :
    ∀ (l : List Char) (c : Char), (l.dropWhile p).head? = some c → p c = false := by
  intro l
  induction l with
  | nil => intro c h; simp at h
  | cons a t ih =>
    intro c h
    rw [List.dropWhile_cons] at h
    by_cases hpa : p a = true
    · rw [if_pos hpa] at h; exact ih c h
    · rw [if_neg hpa] at h
      simp only [List.head?_cons, Option.some.injEq] at h
      subst h
      simpa using hpa

theorem dropWhile_eq_self_of_head {p : Char → Bool} (l : List Char)
    (h : ∀ c, l.head? = some c → p c = false) : l.dropWhile p = l := by
  cases l with
  | nil => rfl
  | cons a t =>
    have ha := h a rfl
    rw [List.dropWhile_cons, if_neg]
    simp [ha]

/-- The first character of a stripped string is not whitespace. -/
theorem pystrip_head_not_ws :
    ∀ (l : List Char) (c : Char), (pystrip l).head? = some c →
      c.isWhitespace = false := by
  intro l c h
  unfold pystrip at h
  rw [List.head?_reverse] at h
  set R := (l.dropWhile Char.isWhitespace).reverse with hR
  have hsuf : List.IsSuffix (R.dropWhile Char.isWhitespace) R :=
    List.dropWhile_suffix _
  obtain ⟨t, ht⟩ := hsuf
  rcases hd : R.dropWhile Char.isWhitespace with _ | ⟨a, r⟩
  · rw [hd] at h; simp at h
  · rw [hd] at ht h
    have hlast : R.getLast? = (a :: r).getLast? := by
      rw [← ht, List.getLast?_append_of_ne_nil t (by simp)]
    rw [← hlast] at h
    rw [hR, List.getLast?_reverse] at h
    exact head?_dropWhile_not l c h

/-- The last character of a stripped string is not whitespace. -/
theorem pystrip_getLast_not_ws :
    ∀ (l : List Char) (c : Char), (pystrip l).getLast? = some c →
      c.isWhitespace = false := by
  intro l c h
  unfold pystrip at h
  rw [List.getLast?_reverse] at h
  exact head?_dropWhile_not _ c h

theorem pystrip_idem (l : List Char) : pystrip (pystrip l) = pystrip l := by
  have h1 : (pystrip l).dropWhile Char.isWhitespace = pystrip l :=
    dropWhile_eq_self_of_head _ (pystrip_head_not_ws l)
  have h2 : (pystrip l).reverse.dropWhile Char.isWhitespace = (pystrip l).reverse := by
    apply dropWhile_eq_self_of_head
    intro c hc
    rw [List.head?_reverse] at hc
    exact pystrip_getLast_not_ws l c hc
  show ((((pystrip l).dropWhile Char.isWhitespace).reverse.dropWhile
      Char.isWhitespace)).reverse = pystrip l
  rw [h1, h2, List.reverse_reverse]

/-- If `pystrip l` is empty then every character of `l` is whitespace. -/
theorem all_ws_of_pystrip_nil {l : List Char} (h : pystrip l = []) :
    ∀ c ∈ l, c.isWhitespace = true := by
  unfold pystrip at h
  rw [List.reverse_eq_nil_iff, List.dropWhile_eq_nil_iff] at h
  have hdrop : ∀ c ∈ l.dropWhile Char.isWhitespace, c.isWhitespace = true := by
    intro c hc
    exact h c (by simpa using hc)
  intro c hc
  rw [← List.takeWhile_append_dropWhile Char.isWhitespace l] at hc
  rcases List.mem_append.mp hc with h1 | h2
  · exact List.mem_takeWhile_imp h1
  · exact hdrop c h2

/-- `str.split()` of an all-whitespace string is empty. -/
theorem pysplit_nil_of_all_ws :
    ∀ (l : List Char), (∀ c ∈ l, c.isWhitespace = true) → pysplit l = [] := by
  intro l
  induction l with
  | nil => intro _; rfl
  | cons a t ih =>
    intro h
    have ha : a.isWhitespace = true := h a (List.mem_cons_self a t)
    have hih := ih (fun c hc => h c (List.mem_cons_of_mem a hc))
    unfold pysplit at hih ⊢
    rw [List.foldr_cons, pysplitStep.eq_def, if_pos ha]
    simpa using hih

/-- `normalizeWs` of an all-whitespace string is empty. -/
theorem normalizeWs_nil_of_all_ws {l : List Char}
    (h : ∀ c ∈ l, c.isWhitespace = true) : normalizeWs l = [] := by
  unfold normalizeWs
  rw [pysplit_nil_of_all_ws l h]
  rfl

/-! ## Sentiment: failure and empty-input behaviour -/

namespace SentimentService

theorem longStep_const_error {analyzer : Oracle}
    (hA : ∀ s, analyzer s = Except.error ()) (st : LongState) (s : List Char) :
    longStep analyzer st s = st := by
  unfold longStep
  by_cases h : (pystrip s).length < 10
  · rw [if_pos h]
  · rw [if_neg h, hA]

theorem longFold_const_error {analyzer : Oracle}
    (hA : ∀ s, analyzer s = Except.error ()) :
    ∀ (sentences : List (List Char)) (st : LongState),
      sentences.foldl (longStep analyzer) st = st := by
  intro sentences
  induction sentences with
  | nil => intro st; rfl
  | cons a t ih =>
    intro st
    rw [List.foldl_cons, longStep_const_error hA]
    exact ih st

end SentimentService

/-- C1: if every inference call of the sentiment model raises, then for every
non-empty input text `SentimentService.analyze` returns exactly the record
`{label: "중립", confidence: 0.0, scores: {"긍정": 0.0, "부정": 0.0,
"중립": 1.0}}` (i.e. `neutralResult`), and no exception propagates (the
function is total and returns this record). -/
theorem sentiment_analyze_all_errors_neutral
    (analyzer : SentimentService.Oracle) (text : List Char)
    (hA : ∀ s, analyzer s = Except.error ()) (hne : text ≠ []) :
    SentimentService.analyze analyzer text = SentimentService.neutralResult := by
  unfold SentimentService.analyze
  by_cases h0 : text = [] ∨ (pystrip text).length = 0
  · rw [if_pos h0]
  · rw [if_neg h0]
    by_cases hlong : 512 * 2 < (SentimentService.preprocessText text).length
    · rw [if_pos hlong]
      unfold SentimentService.analyze_long_text SentimentService.longFold
      rw [SentimentService.longFold_const_error hA]
      rfl
    · rw [if_neg hlong, hA]

/-- Witness for C1 at a concrete always-raising analyzer and concrete text. -/
theorem sentiment_analyze_all_errors_neutral_witness :
    SentimentService.analyze (fun _ => Except.error ()) "안녕하세요".toList
      = SentimentService.neutralResult :=
  sentiment_analyze_all_errors_neutral (fun _ => Except.error ())
    "안녕하세요".toList (fun _ => rfl) (by decide)

/-- C7 (counterexample): on empty input `analyze` reports the neutral label
but with confidence `0.0`, not full confidence `1.0` — the `confidence`
field of the returned record is `0`. -/
theorem sentiment_empty_confidence_not_full :
    (SentimentService.analyze (fun _ => Except.ok []) []).label = "중립" ∧
    (SentimentService.analyze (fun _ => Except.ok []) []).confidence = 0 ∧
    (SentimentService.analyze (fun _ => Except.ok []) []).confidence ≠ 1 := by
  refine ⟨rfl, rfl, ?_⟩
  decide

/-- C7 (amended): for every empty or whitespace-only input,
`SentimentService.analyze` returns — without raising — the neutral record
with confidence `0.0` and score `1.0` on the 중립 entry of the score map. -/
theorem sentiment_analyze_empty_neutral
    (analyzer : SentimentService.Oracle) (text : List Char)
    (h : text = [] ∨ (pystrip text).length = 0) :
    SentimentService.analyze analyzer text = SentimentService.neutralResult := by
  unfold SentimentService.analyze
  rw [if_pos h]

/-- Witness for the amended C7 at the empty string. -/
theorem sentiment_analyze_empty_neutral_witness :
    SentimentService.analyze (fun _ => Except.ok []) []
      = SentimentService.neutralResult :=
  sentiment_analyze_empty_neutral (fun _ => Except.ok []) [] (Or.inl rfl)

/-- C5: `summarize` on empty or whitespace-only input returns, without
raising, the record with the placeholder "nothing to summarize" message and
both lengths equal to `0`. -/
theorem summarize_empty_placeholder
    (gen : SummarizerService.Oracle) (text : List Char)
    (max_length min_length : Option ℕ)
    (h : text = [] ∨ (pystrip text).length = 0) :
    SummarizerService.summarize gen text max_length min_length
      = ⟨SummarizerService.emptyMessage, 0, 0⟩ := by
  unfold SummarizerService.summarize
  rw [if_pos h]

/-- Witness for C5 at the empty string (and at a whitespace-only string). -/
theorem summarize_empty_placeholder_witness :
    SummarizerService.summarize (fun _ _ _ => Except.error []) [] none none
        = ⟨SummarizerService.emptyMessage, 0, 0⟩ ∧
    SummarizerService.summarize (fun _ _ _ => Except.error []) "   ".toList
        (some 120) (some 30) = ⟨SummarizerService.emptyMessage, 0, 0⟩ :=
  ⟨summarize_empty_placeholder (fun _ _ _ => Except.error []) [] none none
      (Or.inl rfl),
   summarize_empty_placeholder (fun _ _ _ => Except.error []) "   ".toList
      (some 120) (some 30) (Or.inr (by decide))⟩

/-! ## Validator claims -/

theorem dropWhile_replicate_of_not {p : Char → Bool} {a : Char}
    (h : p a = false) :
    ∀ n, (List.replicate n a).dropWhile p = List.replicate n a := by
  intro n
  cases n with
  | zero => rfl
  | succ m =>
    rw [List.replicate_succ, List.dropWhile_cons]
    simp [h]

theorem pystrip_replicate {a : Char} (h : a.isWhitespace = false) (n : ℕ) :
    pystrip (List.replicate n a) = List.replicate n a := by
  unfold pystrip
  rw [dropWhile_replicate_of_not h, List.reverse_replicate,
    dropWhile_replicate_of_not h, List.reverse_replicate]

/-- C4: every input whose stripped length is below 50 is rejected with one of
the two length-deficiency messages (the dedicated empty-input message for
`""`, the "too short (min 50)" message otherwise), and every input whose
stripped length exceeds 50000 is rejected with the "too long" message. -/
theorem is_valid_article_text_length_bounds (text : List Char) :
    ((pystrip text).length < 50 →
      (TextValidator.is_valid_article_text text).1 = false ∧
      ((TextValidator.is_valid_article_text text).2 = TextValidator.emptyMsg ∨
        (TextValidator.is_valid_article_text text).2
          = TextValidator.tooShortMsg)) ∧
    (50000 < (pystrip text).length →
      (TextValidator.is_valid_article_text text).1 = false ∧
      (TextValidator.is_valid_article_text text).2
        = TextValidator.tooLongMsg) := by
  unfold TextValidator.is_valid_article_text TextValidator.MIN_TEXT_LENGTH
    TextValidator.MAX_TEXT_LENGTH
  by_cases h0 : text = []
  · subst h0
    refine ⟨fun _ => ⟨rfl, Or.inl rfl⟩, fun h => absurd h (by decide)⟩
  · rw [if_neg h0]
    constructor
    · intro hlt
      rw [if_pos hlt]
      exact ⟨rfl, Or.inr rfl⟩
    · intro hgt
      rw [if_neg (by omega), if_pos hgt]
      exact ⟨rfl, rfl⟩

/-- Witness for C4: a concrete too-short input and a concrete 50001-character
too-long input. -/
theorem is_valid_article_text_length_bounds_witness :
    ((TextValidator.is_valid_article_text "짧다".toList).1 = false ∧
      ((TextValidator.is_valid_article_text "짧다".toList).2
          = TextValidator.emptyMsg ∨
        (TextValidator.is_valid_article_text "짧다".toList).2
          = TextValidator.tooShortMsg)) ∧
    ((TextValidator.is_valid_article_text
        (List.replicate 50001 '가')).1 = false ∧
      (TextValidator.is_valid_article_text (List.replicate 50001 '가')).2
        = TextValidator.tooLongMsg) :=
  ⟨(is_valid_article_text_length_bounds "짧다".toList).1 (by decide),
   (is_valid_article_text_length_bounds (List.replicate 50001 '가')).2
     (by rw [pystrip_replicate (by decide) 50001, List.length_replicate]
         omega)⟩

theorem pystrip_eq_self (l : List Char)
    (h1 : ∀ c, l.head? = some c → c.isWhitespace = false)
    (h2 : ∀ c, l.getLast? = some c → c.isWhitespace = false) :
    pystrip l = l := by
  unfold pystrip
  rw [dropWhile_eq_self_of_head l h1]
  rw [dropWhile_eq_self_of_head l.reverse
    (fun c hc => h2 c (by rwa [List.head?_reverse] at hc))]
  exact List.reverse_reverse l

theorem pystrip_https_append (url : List Char) :
    pystrip ("https://".toList ++ pystrip url)
      = "https://".toList ++ pystrip url := by
  have hH : ("https://".toList) = ['h', 't', 't', 'p', 's', ':', '/', '/'] :=
    rfl
  apply pystrip_eq_self
  · intro c hc
    rw [hH] at hc
    simp only [List.cons_append, List.head?_cons, Option.some.injEq] at hc
    subst hc
    decide
  · intro c hc
    rcases hv : pystrip url with _ | ⟨a, t⟩
    · rw [hv, List.append_nil, hH] at hc
      have hl : (['h', 't', 't', 'p', 's', ':', '/', '/'] :
          List Char).getLast? = some '/' := rfl
      rw [hl] at hc
      cases hc
      decide
    · rw [hv, List.getLast?_append_of_ne_nil _ (by simp)] at hc
      rw [← hv] at hc
      exact pystrip_getLast_not_ws url c hc

/-- C10: `sanitize_url` always returns a string that starts with `http://`
or `https://` and carries no leading or trailing whitespace (stripping it
again changes nothing), and it is idempotent. -/
theorem sanitize_url_spec (url : List Char) :
    (List.IsPrefix "http://".toList (URLValidator.sanitize_url url) ∨
      List.IsPrefix "https://".toList (URLValidator.sanitize_url url)) ∧
    pystrip (URLValidator.sanitize_url url) = URLValidator.sanitize_url url ∧
    URLValidator.sanitize_url (URLValidator.sanitize_url url)
      = URLValidator.sanitize_url url := by
  unfold URLValidator.sanitize_url
  by_cases hc : (("http://".toList).isPrefixOf (pystrip url)
      || ("https://".toList).isPrefixOf (pystrip url)) = true
  · rw [if_pos hc]
    have hpre : List.IsPrefix "http://".toList (pystrip url) ∨
        List.IsPrefix "https://".toList (pystrip url) := by
      rcases Bool.or_eq_true_iff.mp hc with h | h
      · exact Or.inl (List.isPrefixOf_iff_prefix.mp h)
      · exact Or.inr (List.isPrefixOf_iff_prefix.mp h)
    refine ⟨hpre, pystrip_idem url, ?_⟩
    rw [pystrip_idem url, if_pos hc]
  · rw [if_neg hc]
    refine ⟨Or.inr ⟨pystrip url, rfl⟩, pystrip_https_append url, ?_⟩
    rw [pystrip_https_append url, if_pos ?_]
    rw [Bool.or_eq_true_iff]
    right
    exact List.isPrefixOf_iff_prefix.mpr ⟨pystrip url, rfl⟩

/-! ## Summarizer post-processing (C9) -/

/-- Modelled from the spec: a sentence-terminal punctuation mark (`.`, `!`
or `?`).  Used only to state what the specification's words assert, for
comparison with `SummarizerService.endsWithClosing`, the check the code
actually performs. -/
def isTerminalPunctuation (c : Char) : Bool :=
  ['.', '!', '?'].contains c

/-- C9 (counterexample): the decoded summary `"요약이 끝났다"` is returned
unchanged by `_postprocess` — it is non-empty and ends with the Hangul
syllable `'다'`, which is not a terminal punctuation mark, so the
post-processed summary does not end with terminal punctuation. -/
theorem postprocess_unpunctuated_counterexample :
    SummarizerService.postprocess "요약이 끝났다".toList
        = "요약이 끝났다".toList ∧
    SummarizerService.postprocess "요약이 끝났다".toList ≠ [] ∧
    (SummarizerService.postprocess "요약이 끝났다".toList).getLast?
        = some '다' ∧
    isTerminalPunctuation '다' = false := by
  refine ⟨by decide, by decide, by decide, by decide⟩

/-- C9 (amended): `_postprocess` appends `'.'` exactly when the stripped
summary does not already end in `'.'`, `'다'`, `'요'` or `'!'`; hence every
non-empty post-processed summary ends in one of these four characters (which
include the two Hangul sentence-final syllables, not only punctuation). -/
theorem postprocess_ends_with_closing (s : List Char) :
    (SummarizerService.postprocess s ≠ [] →
      SummarizerService.endsWithClosing (SummarizerService.postprocess s)
        = true) ∧
    (pystrip s ≠ [] → SummarizerService.endsWithClosing (pystrip s) = false →
      SummarizerService.postprocess s = pystrip s ++ ['.']) := by
  unfold SummarizerService.postprocess
  by_cases hc : pystrip s ≠ [] ∧
      ¬ SummarizerService.endsWithClosing (pystrip s) = true
  · rw [if_pos hc]
    constructor
    · intro _
      unfold SummarizerService.endsWithClosing
      rw [List.getLast?_concat]
      rfl
    · intro _ _
      rfl
  · rw [if_neg hc]
    rcases not_and_or.mp hc with h | h
    · push_neg at h
      exact ⟨fun hne => absurd h hne, fun hne _ => absurd h hne⟩
    · push_neg at h
      exact ⟨fun _ => h, fun _ hfalse => by rw [h] at hfalse; cases hfalse⟩

/-- Witness for the amended C9 at a summary lacking a closing character. -/
theorem postprocess_ends_with_closing_witness :
    SummarizerService.endsWithClosing
        (SummarizerService.postprocess "좋은 요약".toList) = true ∧
    SummarizerService.postprocess "좋은 요약".toList
        = pystrip "좋은 요약".toList ++ ['.'] :=
  ⟨(postprocess_ends_with_closing "좋은 요약".toList).1 (by decide),
   (postprocess_ends_with_closing "좋은 요약".toList).2 (by decide)
      (by decide)⟩

/-! ## Short-text score estimation (C6) -/

theorem estimate_scores_pos_eq (c : ℚ) :
    SentimentService.estimate_scores "긍정" c
      = [("긍정", c), ("부정", round4 ((1 - c) / 2)),
         ("중립", round4 ((1 - c) / 2))] := rfl

theorem estimate_scores_neg_eq (c : ℚ) :
    SentimentService.estimate_scores "부정" c
      = [("긍정", round4 ((1 - c) / 2)), ("부정", c),
         ("중립", round4 ((1 - c) / 2))] := rfl

theorem estimate_scores_neu_eq (c : ℚ) :
    SentimentService.estimate_scores "중립" c
      = [("긍정", round4 ((1 - c) / 2)), ("부정", round4 ((1 - c) / 2)),
         ("중립", c)] := rfl

/-- Evaluation of `round4` at a concrete rational, given the bracketing of
the scaled argument by an integer. -/
theorem round4_concrete {q : ℚ} {z : ℤ} (h1 : (z:ℚ) ≤ q * 10000 + 1/2)
    (h2 : q * 10000 + 1/2 < z + 1) : round4 q = (z:ℚ)/10000 := by
  rw [round4_eq, Int.floor_eq_iff.mpr ⟨h1, h2⟩]

theorem estimate_scores_unknown_eq :
    SentimentService.estimate_scores "LABEL_9" (1/2)
      = [("긍정", round4 ((1 - 1/2) / 3)), ("부정", round4 ((1 - 1/2) / 3)),
         ("중립", round4 ((1 - 1/2) / 3)), ("LABEL_9", 1/2)] := rfl

/-- C6 (counterexample): when the reported label is the unmapped raw label
`"LABEL_9"`, `_estimate_scores` adds it as a fourth dict key, so the
remaining mass `1 - c` is split over the three preset labels:
for `c = 1/2` the label `"긍정"` receives `round((1-c)/3, 4) = 0.1667`,
not `round((1-c)/2, 4) = 0.25`. -/
theorem estimate_scores_unknown_label_counterexample :
    (SentimentService.estimate_scores "LABEL_9" (1/2)).lookup "긍정"
        = some ((1667:ℚ)/10000) ∧
    round4 ((1 - 1/2) / 2) = 1/4 ∧
    ((1667 : ℚ)/10000) ≠ 1/4 := by
  have e1 : round4 ((1 - 1/2) / 3) = (1667:ℚ)/10000 := by
    have := round4_concrete (q := (1 - 1/2) / 3) (z := 1667) (by norm_num)
      (by norm_num)
    simpa using this
  have e2 : round4 ((1 - 1/2) / 2) = (2500:ℚ)/10000 := by
    have := round4_concrete (q := (1 - 1/2) / 2) (z := 2500) (by norm_num)
      (by norm_num)
    simpa using this
  refine ⟨?_, by rw [e2]; norm_num, by norm_num⟩
  rw [estimate_scores_unknown_eq, e1]
  rfl

/-- C6 (amended): in the short-text branch, for every reported label among
the three preset labels 긍정 / 부정 / 중립 and every confidence `c ∈ [0,1]`,
`_estimate_scores` assigns `c` to the reported label and gives each of the
other two labels `round((1 - c) / 2, 4)`.  (For raw labels outside the
preset dict the mass is split three ways instead — see the
counterexample.) -/
theorem estimate_scores_even_split (label : String) (c : ℚ)
    (hmem : label = "긍정" ∨ label = "부정" ∨ label = "중립")
    (h0 : 0 ≤ c) (h1 : c ≤ 1) :
    (SentimentService.estimate_scores label c).lookup label = some c ∧
    (∀ other, (other = "긍정" ∨ other = "부정" ∨ other = "중립") →
      other ≠ label →
      (SentimentService.estimate_scores label c).lookup other
        = some (round4 ((1 - c) / 2))) := by
  rcases hmem with rfl | rfl | rfl
  · rw [estimate_scores_pos_eq]
    refine ⟨rfl, ?_⟩
    intro other hother hne
    rcases hother with rfl | rfl | rfl
    · exact absurd rfl hne
    · rfl
    · rfl
  · rw [estimate_scores_neg_eq]
    refine ⟨rfl, ?_⟩
    intro other hother hne
    rcases hother with rfl | rfl | rfl
    · rfl
    · exact absurd rfl hne
    · rfl
  · rw [estimate_scores_neu_eq]
    refine ⟨rfl, ?_⟩
    intro other hother hne
    rcases hother with rfl | rfl | rfl
    · rfl
    · rfl
    · exact absurd rfl hne

/-- Witness for the amended C6 at label 부정 and confidence 3/10. -/
theorem estimate_scores_even_split_witness :
    (SentimentService.estimate_scores "부정" (3/10)).lookup "부정"
        = some (3/10) ∧
    (∀ other, (other = "긍정" ∨ other = "부정" ∨ other = "중립") →
      other ≠ "부정" →
      (SentimentService.estimate_scores "부정" (3/10)).lookup other
        = some (round4 ((1 - 3/10) / 2))) :=
  estimate_scores_even_split "부정" (3/10) (Or.inr (Or.inl rfl))
    (by norm_num) (by norm_num)

/-! ## Keyword service: invariants of both extraction paths -/

namespace KeywordService

theorem keys_bumpFreq (w : List Char) :
    ∀ (m : List (List Char × ℕ)),
      (bumpFreq m w).map Prod.fst
        = if w ∈ m.map Prod.fst then m.map Prod.fst
          else m.map Prod.fst ++ [w] := by
  intro m
  induction m with
  | nil => simp [bumpFreq]
  | cons p rest ih =>
    obtain ⟨k, v⟩ := p
    by_cases hk : k = w
    · subst hk
      simp [bumpFreq]
    · by_cases hw : w ∈ rest.map Prod.fst
      · simp [bumpFreq, hk, ih, hw, Ne.symm hk]
      · simp [bumpFreq, hk, ih, hw, Ne.symm hk]

theorem vals_bumpFreq (w : List Char) :
    ∀ (m : List (List Char × ℕ)), (∀ p ∈ m, 1 ≤ p.2) →
      ∀ p ∈ bumpFreq m w, 1 ≤ p.2 := by
  intro m
  induction m with
  | nil =>
    intro _ p hp
    simp only [bumpFreq, List.mem_singleton] at hp
    subst hp; exact le_refl 1
  | cons q rest ih =>
    intro h p hp
    obtain ⟨k, v⟩ := q
    by_cases hk : k = w
    · simp only [bumpFreq, if_pos hk, List.mem_cons] at hp
      rcases hp with hp | hp
      · subst hp
        have := h (k, v) (List.mem_cons_self _ _)
        simp only at this ⊢
        omega
      · exact h p (List.mem_cons_of_mem _ hp)
    · simp only [bumpFreq, if_neg hk, List.mem_cons] at hp
      rcases hp with hp | hp
      · subst hp; exact h (k, v) (List.mem_cons_self _ _)
      · exact ih (fun q hq => h q (List.mem_cons_of_mem _ hq)) p hp

theorem keys_bumpFreq_nodup {w : List Char} {m : List (List Char × ℕ)}
    (h : (m.map Prod.fst).Nodup) : ((bumpFreq m w).map Prod.fst).Nodup := by
  rw [keys_bumpFreq]
  by_cases hw : w ∈ m.map Prod.fst
  · rwa [if_pos hw]
  · rw [if_neg hw, List.nodup_append]
    exact ⟨h, List.nodup_singleton w, by
      intro a ha hmem
      rw [List.mem_singleton] at hmem
      exact hw (hmem ▸ ha)⟩

theorem wordFreq_foldl_inv :
    ∀ (words : List (List Char)) (m : List (List Char × ℕ)),
      (m.map Prod.fst).Nodup → (∀ p ∈ m, 1 ≤ p.2) →
      ((words.foldl freqStep m).map Prod.fst).Nodup ∧
        (∀ p ∈ words.foldl freqStep m, 1 ≤ p.2) := by
  intro words
  induction words with
  | nil => intro m h1 h2; exact ⟨h1, h2⟩
  | cons word rest ih =>
    intro m h1 h2
    rw [List.foldl_cons]
    apply ih
    · unfold freqStep
      split
      · exact keys_bumpFreq_nodup h1
      · exact h1
    · unfold freqStep
      split
      · exact vals_bumpFreq word m h2
      · exact h2

theorem wordFreqOf_keys_nodup (text : List Char) :
    ((wordFreqOf text).map Prod.fst).Nodup :=
  (wordFreq_foldl_inv (koreanRuns text) [] (by simp) (by simp)).1

theorem wordFreqOf_vals_pos (text : List Char) :
    ∀ p ∈ wordFreqOf text, 1 ≤ p.2 :=
  (wordFreq_foldl_inv (koreanRuns text) [] (by simp) (by simp)).2

theorem insertDesc_perm (x : List Char × ℕ) :
    ∀ (l : List (List Char × ℕ)), List.Perm (insertDesc x l) (x :: l) := by
  intro l
  induction l with
  | nil => exact List.Perm.refl _
  | cons y ys ih =>
    unfold insertDesc
    by_cases hle : x.2 ≤ y.2
    · rw [if_pos hle]
      exact (ih.cons y).trans (List.Perm.swap x y ys)
    · rw [if_neg hle]

theorem sortDesc_perm :
    ∀ (l : List (List Char × ℕ)), List.Perm (sortDesc l) l := by
  intro l
  induction l with
  | nil => exact List.Perm.refl _
  | cons x xs ih =>
    unfold sortDesc
    exact (insertDesc_perm x (sortDesc xs)).trans (ih.cons x)

theorem insertDesc_sorted (x : List Char × ℕ) :
    ∀ (l : List (List Char × ℕ)),
      l.Pairwise (fun a b => b.2 ≤ a.2) →
      (insertDesc x l).Pairwise (fun a b => b.2 ≤ a.2) := by
  intro l
  induction l with
  | nil => intro _; simp [insertDesc]
  | cons y ys ih =>
    intro h
    rw [List.pairwise_cons] at h
    obtain ⟨hy, hys⟩ := h
    unfold insertDesc
    by_cases hle : x.2 ≤ y.2
    · rw [if_pos hle, List.pairwise_cons]
      refine ⟨?_, ih hys⟩
      intro z hz
      rcases List.mem_cons.mp ((insertDesc_perm x ys).mem_iff.mp hz)
        with hz | hz
      · exact hz ▸ hle
      · exact hy z hz
    · rw [if_neg hle, List.pairwise_cons]
      refine ⟨?_, List.pairwise_cons.mpr ⟨hy, hys⟩⟩
      intro z hz
      have hyx : y.2 ≤ x.2 := Nat.le_of_lt (Nat.lt_of_not_le hle)
      rcases List.mem_cons.mp hz with hz | hz
      · exact hz ▸ hyx
      · exact (hy z hz).trans hyx

theorem sortDesc_sorted :
    ∀ (l : List (List Char × ℕ)),
      (sortDesc l).Pairwise (fun a b => b.2 ≤ a.2) := by
  intro l
  induction l with
  | nil => exact List.Pairwise.nil
  | cons x xs ih =>
    unfold sortDesc
    exact insertDesc_sorted x (sortDesc xs) ih

theorem collectValid_length :
    ∀ (cands : List (List Char × ℚ)) (k c : ℕ), c < k →
      (collectValid cands k c).length ≤ k - c := by
  intro cands
  induction cands with
  | nil => intro k c _; simp [collectValid]
  | cons p rest ih =>
    intro k c hck
    obtain ⟨kw, sc⟩ := p
    by_cases hv : is_valid_keyword kw = true
    · by_cases hbreak : k ≤ c + 1
      · simp only [collectValid, if_pos hv, if_pos hbreak,
          List.length_singleton]
        omega
      · simp only [collectValid, if_pos hv, if_neg hbreak, List.length_cons]
        have := ih k (c + 1) (by omega)
        omega
    · simp only [collectValid, if_neg hv]
      exact (ih k c hck)

theorem collectValid_eq_map_sublist :
    ∀ (cands : List (List Char × ℚ)) (k c : ℕ),
      ∃ sub, List.Sublist sub cands ∧
        collectValid cands k c
          = sub.map (fun p => (⟨p.1, round4 p.2⟩ : KeywordResult)) := by
  intro cands
  induction cands with
  | nil => intro k c; exact ⟨[], List.Sublist.refl [], rfl⟩
  | cons p rest ih =>
    intro k c
    obtain ⟨kw, sc⟩ := p
    by_cases hv : is_valid_keyword kw = true
    · by_cases hbreak : k ≤ c + 1
      · refine ⟨[(kw, sc)], ?_, ?_⟩
        · exact (List.nil_sublist rest).cons₂ (kw, sc)
        · simp only [collectValid, if_pos hv, if_pos hbreak, List.map_cons,
            List.map_nil]
      · obtain ⟨sub, hs, he⟩ := ih k (c + 1)
        refine ⟨(kw, sc) :: sub, hs.cons₂ (kw, sc), ?_⟩
        simp only [collectValid, if_pos hv, if_neg hbreak, he, List.map_cons]
    · obtain ⟨sub, hs, he⟩ := ih k c
      exact ⟨sub, hs.cons (kw, sc), by
        simp only [collectValid, if_neg hv, he]⟩

theorem extract_with_frequency_length (text : List Char) (top_k : ℕ) :
    (extract_with_frequency text top_k).length ≤ top_k := by
  unfold extract_with_frequency
  rw [List.length_map]
  exact List.length_take_le _ _

theorem extract_with_frequency_sorted (text : List Char) (top_k : ℕ) :
    (extract_with_frequency text top_k).Pairwise
      (fun a b => b.score ≤ a.score) := by
  unfold extract_with_frequency
  apply List.pairwise_map.mpr
  have hst : ((sortDesc (wordFreqOf text)).take top_k).Pairwise
      (fun a b => b.2 ≤ a.2) :=
    (sortDesc_sorted _).sublist (List.take_sublist _ _)
  apply hst.imp
  intro a b hab
  apply round4_mono
  rw [div_eq_mul_inv, div_eq_mul_inv]
  apply mul_le_mul_of_nonneg_right
  · exact_mod_cast hab
  · positivity

theorem extract_with_frequency_nodup (text : List Char) (top_k : ℕ) :
    ((extract_with_frequency text top_k).map KeywordResult.keyword).Nodup := by
  unfold extract_with_frequency
  rw [List.map_map]
  have h1 : ((sortDesc (wordFreqOf text)).map Prod.fst).Nodup := by
    have hperm := (sortDesc_perm (wordFreqOf text)).map Prod.fst
    exact hperm.nodup_iff.mpr (wordFreqOf_keys_nodup text)
  have h2 : (((sortDesc (wordFreqOf text)).take top_k).map Prod.fst).Nodup := by
    rw [List.map_take]
    exact h1.sublist (List.take_sublist _ _)
  exact h2

end KeywordService

/-- C3 (counterexample): with `topK = 0` and a primary method returning one
valid candidate, `extract` returns one keyword — the collection loop appends
a candidate before testing `len(results) >= top_k`, so the result length
exceeds `topK`. -/
theorem keyword_extract_topk_zero_counterexample :
    (KeywordService.extract
        (fun _ _ => Except.ok [("경제성장".toList, (1:ℚ)/2)])
        "경제".toList 0).length = 1 ∧
    ¬ ((KeywordService.extract
        (fun _ _ => Except.ok [("경제성장".toList, (1:ℚ)/2)])
        "경제".toList 0).length ≤ 0) := by
  exact ⟨by decide, by decide⟩

/-- C3 (amended): for every input text and every `topK ≥ 1`, provided the
primary method's candidate list is sorted by non-increasing score and free
of duplicate keyword texts (as KeyBERT's ranking produces), `extract`
returns at most `topK` keyword records, ordered by non-increasing score,
with pairwise distinct keyword texts; and for empty or whitespace-only
input it returns `[]`. -/
theorem keyword_extract_invariants
    (keybert : KeywordService.Oracle) (text : List Char) (top_k : ℕ)
    (hk : 1 ≤ top_k)
    (horacle : ∀ t n r, keybert t n = Except.ok r →
      r.Pairwise (fun a b => b.2 ≤ a.2) ∧ (r.map Prod.fst).Nodup) :
    ((text = [] ∨ (pystrip text).length = 0) →
      KeywordService.extract keybert text top_k = []) ∧
    (KeywordService.extract keybert text top_k).length ≤ top_k ∧
    (KeywordService.extract keybert text top_k).Pairwise
      (fun a b => b.score ≤ a.score) ∧
    ((KeywordService.extract keybert text top_k).map
      KeywordService.KeywordResult.keyword).Nodup := by
  by_cases hempty : text = [] ∨ (pystrip text).length = 0
  · have hcase : KeywordService.extract keybert text top_k = [] := by
      unfold KeywordService.extract
      rw [if_pos hempty]
    rw [hcase]
    exact ⟨fun _ => rfl, by simp, List.Pairwise.nil, List.nodup_nil⟩
  · rcases hor : keybert text (top_k * 2) with e | kws
    · have hcase : KeywordService.extract keybert text top_k
          = KeywordService.extract_with_frequency text top_k := by
        unfold KeywordService.extract KeywordService.extract_with_keybert
        rw [if_neg hempty, hor]
      rw [hcase]
      exact ⟨fun h => absurd h hempty,
        KeywordService.extract_with_frequency_length text top_k,
        KeywordService.extract_with_frequency_sorted text top_k,
        KeywordService.extract_with_frequency_nodup text top_k⟩
    · have hcase : KeywordService.extract keybert text top_k
          = KeywordService.collectValid kws top_k 0 := by
        unfold KeywordService.extract KeywordService.extract_with_keybert
        rw [if_neg hempty, hor]
      obtain ⟨hsorted, hnodup⟩ := horacle text (top_k * 2) kws hor
      obtain ⟨sub, hsub, heq⟩ :=
        KeywordService.collectValid_eq_map_sublist kws top_k 0
      rw [hcase]
      refine ⟨fun h => absurd h hempty, ?_, ?_, ?_⟩
      · have := KeywordService.collectValid_length kws top_k 0 (by omega)
        omega
      · rw [heq]
        apply List.pairwise_map.mpr
        exact (hsorted.sublist hsub).imp (fun h => round4_mono h)
      · have hmk : (KeywordService.collectValid kws top_k 0).map
            KeywordService.KeywordResult.keyword = sub.map Prod.fst := by
          rw [heq, List.map_map]
          rfl
        rw [hmk]
        exact hnodup.sublist (hsub.map Prod.fst)

/-- Witness for the amended C3 at a concrete sorted duplicate-free oracle. -/
theorem keyword_extract_invariants_witness :
    ((("경제 뉴스".toList : List Char) = [] ∨
        (pystrip "경제 뉴스".toList).length = 0) →
      KeywordService.extract
        (fun _ _ => Except.ok
          [("경제성장".toList, (1:ℚ)/2), ("부동산".toList, (1:ℚ)/4)])
        "경제 뉴스".toList 5 = []) ∧
    (KeywordService.extract
        (fun _ _ => Except.ok
          [("경제성장".toList, (1:ℚ)/2), ("부동산".toList, (1:ℚ)/4)])
        "경제 뉴스".toList 5).length ≤ 5 ∧
    (KeywordService.extract
        (fun _ _ => Except.ok
          [("경제성장".toList, (1:ℚ)/2), ("부동산".toList, (1:ℚ)/4)])
        "경제 뉴스".toList 5).Pairwise (fun a b => b.score ≤ a.score) ∧
    ((KeywordService.extract
        (fun _ _ => Except.ok
          [("경제성장".toList, (1:ℚ)/2), ("부동산".toList, (1:ℚ)/4)])
        "경제 뉴스".toList 5).map
      KeywordService.KeywordResult.keyword).Nodup :=
  keyword_extract_invariants
    (fun _ _ => Except.ok
      [("경제성장".toList, (1:ℚ)/2), ("부동산".toList, (1:ℚ)/4)])
    "경제 뉴스".toList 5 (by omega)
    (by
      intro t n r h
      simp only [Except.ok.injEq] at h
      subst h
      refine ⟨?_, ?_⟩
      · refine List.pairwise_cons.mpr ⟨?_, ?_⟩
        · intro b hb
          rw [List.mem_singleton] at hb
          subst hb
          norm_num
        · simp
      · decide)

/-- C8: when the primary keyword method raises, `extract` falls back to the
frequency method, and for every input producing at least one counted
candidate word and every `topK ≥ 1` the first returned keyword has score
exactly `1.0` (its frequency is the maximal frequency used as denominator). -/
theorem frequency_fallback_top_score_one
    (keybert : KeywordService.Oracle) (text : List Char) (top_k : ℕ)
    (herr : ∀ t n, keybert t n = Except.error ())
    (hne : ¬(text = [] ∨ (pystrip text).length = 0))
    (hcand : KeywordService.wordFreqOf text ≠ []) (hk : 1 ≤ top_k) :
    KeywordService.extract keybert text top_k
        = KeywordService.extract_with_frequency text top_k ∧
    (KeywordService.extract_with_frequency text top_k).head?.map
        KeywordService.KeywordResult.score = some 1 := by
  constructor
  · unfold KeywordService.extract KeywordService.extract_with_keybert
    rw [if_neg hne, herr text (top_k * 2)]
  · unfold KeywordService.extract_with_frequency
    rcases hs : KeywordService.sortDesc (KeywordService.wordFreqOf text)
      with _ | ⟨w, rest⟩
    · exfalso
      have hperm := KeywordService.sortDesc_perm (KeywordService.wordFreqOf text)
      rw [hs] at hperm
      exact hcand hperm.symm.eq_nil
    · rcases top_k with _ | n
      · exact absurd hk (by omega)
      · have hw2 : 1 ≤ w.2 := by
          have hperm :=
            KeywordService.sortDesc_perm (KeywordService.wordFreqOf text)
          rw [hs] at hperm
          exact KeywordService.wordFreqOf_vals_pos text w
            (hperm.mem_iff.mp (List.mem_cons_self w rest))
        have hmax : KeywordService.maxFreqOf (w :: rest) = w.2 := rfl
        rw [List.take_succ_cons, List.map_cons, List.head?_cons, hmax]
        have hden : ((w.2 : ℚ)) ≠ 0 := by
          have : (0:ℚ) < (w.2 : ℚ) := by exact_mod_cast hw2
          exact this.ne'
        rw [Option.map_some', div_self hden, round4_one]

/-- Witness for C8 at a concrete text with a repeated Korean word. -/
theorem frequency_fallback_top_score_one_witness :
    KeywordService.extract (fun _ _ => Except.error ())
        "경제 경제 성장".toList 5
      = KeywordService.extract_with_frequency "경제 경제 성장".toList 5 ∧
    (KeywordService.extract_with_frequency "경제 경제 성장".toList 5).head?.map
        KeywordService.KeywordResult.score = some 1 :=
  frequency_fallback_top_score_one (fun _ _ => Except.error ())
    "경제 경제 성장".toList 5 (fun _ _ => rfl) (by decide) (by decide)
    (by omega)

/-! ## Long-text sentiment aggregation (C2) -/

namespace SentimentService

/-- Loop invariant of the sentence loop: the accumulated per-label sums are
non-negative and their total lies between `count / 3` and `count` (each
successfully classified sentence contributes one score in `[1/3, 1]`). -/
def LongInv (st : LongState) : Prop :=
  0 ≤ st.pos ∧ 0 ≤ st.neg ∧ 0 ≤ st.neu ∧
  st.pos + st.neg + st.neu ≤ (st.count : ℚ) ∧
  (st.count : ℚ) / 3 ≤ st.pos + st.neg + st.neu

theorem addScore_cases (st : LongState) (label : String) (sc : ℚ) :
    (addScore st label sc = { st with pos := st.pos + sc }) ∨
    (addScore st label sc = { st with neg := st.neg + sc }) ∨
    (addScore st label sc = { st with neu := st.neu + sc }) := by
  unfold addScore
  split_ifs
  · exact Or.inl rfl
  · exact Or.inr (Or.inl rfl)
  · exact Or.inr (Or.inr rfl)

theorem longStep_inv {analyzer : Oracle}
    (hA : ∀ s l sc r, analyzer s = Except.ok ((l, sc) :: r) →
      1/3 ≤ sc ∧ sc ≤ 1)
    (st : LongState) (sentence : List Char) (h : LongInv st) :
    LongInv (longStep analyzer st sentence) := by
  unfold longStep
  by_cases hshort : (pystrip sentence).length < 10
  · rwa [if_pos hshort]
  · rw [if_neg hshort]
    rcases ho : analyzer (sentence.take 512) with e | x
    · exact h
    · cases x with
      | nil => exact h
      | cons hd tl =>
        obtain ⟨l, sc⟩ := hd
        obtain ⟨hsc1, hsc2⟩ := hA (sentence.take 512) l sc tl ho
        obtain ⟨h1, h2, h3, h4, h5⟩ := h
        dsimp only
        unfold LongInv
        rcases addScore_cases st (labelMapGet l "중립") sc with hc | hc | hc <;>
          rw [hc] <;> dsimp only <;>
          refine ⟨?_, ?_, ?_, ?_, ?_⟩ <;> (push_cast; linarith)

theorem foldl_longStep_inv {analyzer : Oracle}
    (hA : ∀ s l sc r, analyzer s = Except.ok ((l, sc) :: r) →
      1/3 ≤ sc ∧ sc ≤ 1) :
    ∀ (sentences : List (List Char)) (st : LongState), LongInv st →
      LongInv (sentences.foldl (longStep analyzer) st) := by
  intro sentences
  induction sentences with
  | nil => intro st h; exact h
  | cons a t ih =>
    intro st h
    rw [List.foldl_cons]
    exact ih _ (longStep_inv hA st a h)

theorem longFold_inv {analyzer : Oracle}
    (hA : ∀ s l sc r, analyzer s = Except.ok ((l, sc) :: r) →
      1/3 ≤ sc ∧ sc ≤ 1)
    (sentences : List (List Char)) :
    LongInv (longFold analyzer sentences) := by
  apply foldl_longStep_inv hA
  unfold LongInv
  norm_num

end SentimentService

namespace SentimentService

/-- The loop state reached by `_analyze_long_text`: the `all_scores` totals
and `valid_count` after the sentence loop over the preprocessed text. -/
def longStateOf (analyzer : Oracle) (text : List Char) : LongState :=
  longFold analyzer (splitSentences (preprocessText text))

theorem avgOf_eq (v : ℚ) (c : ℕ) : avgOf v c = round4 (v / (c : ℚ)) := rfl

theorem maxLabel_spec (ap an au : ℚ) :
    (maxLabel ap an au).2 = max ap (max an au) ∧
    (((maxLabel ap an au).1 = "긍정" ∧ (maxLabel ap an au).2 = ap) ∨
     ((maxLabel ap an au).1 = "부정" ∧ (maxLabel ap an au).2 = an) ∨
     ((maxLabel ap an au).1 = "중립" ∧ (maxLabel ap an au).2 = au)) := by
  unfold maxLabel
  by_cases h1 : an > ap
  · simp only [if_pos h1]
    by_cases h2 : au > an
    · simp only [if_pos h2]
      refine ⟨?_, Or.inr (Or.inr ⟨by trivial, by trivial⟩)⟩
      rw [max_eq_right h2.le, max_eq_right (lt_trans h1 h2).le]
    · simp only [if_neg h2]
      refine ⟨?_, Or.inr (Or.inl ⟨by trivial, by trivial⟩)⟩
      rw [max_eq_left (not_lt.mp h2), max_eq_right h1.le]
  · simp only [if_neg h1]
    by_cases h2 : au > ap
    · simp only [if_pos h2]
      refine ⟨?_, Or.inr (Or.inr ⟨by trivial, by trivial⟩)⟩
      rw [max_eq_right (lt_of_le_of_lt (not_lt.mp h1) h2).le, max_eq_right h2.le]
    · simp only [if_neg h2]
      refine ⟨?_, Or.inl ⟨by trivial, by trivial⟩⟩
      rw [max_eq_left (max_le (not_lt.mp h1) (not_lt.mp h2))]

theorem finalizeLong_explicit (st : LongState) (h0 : ¬ st.count = 0)
    (hpos : 0 < avgOf st.pos st.count + avgOf st.neg st.count
      + avgOf st.neu st.count) :
    finalizeLong st =
      ⟨(maxLabel (avgOf st.pos st.count) (avgOf st.neg st.count)
          (avgOf st.neu st.count)).1,
       (maxLabel (avgOf st.pos st.count) (avgOf st.neg st.count)
          (avgOf st.neu st.count)).2,
       [("긍정", round4 (avgOf st.pos st.count /
          (avgOf st.pos st.count + avgOf st.neg st.count
            + avgOf st.neu st.count))),
        ("부정", round4 (avgOf st.neg st.count /
          (avgOf st.pos st.count + avgOf st.neg st.count
            + avgOf st.neu st.count))),
        ("중립", round4 (avgOf st.neu st.count /
          (avgOf st.pos st.count + avgOf st.neg st.count
            + avgOf st.neu st.count)))]⟩ := by
  unfold finalizeLong
  rw [if_neg h0, if_pos hpos]

/-- Range and rounded-sum facts about the renormalized score triple built
from non-negative averages with positive total. -/
theorem normalized_scores_props (a b c : ℚ) (ha0 : 0 ≤ a) (hb0 : 0 ≤ b)
    (hc0 : 0 ≤ c) (hpos : 0 < a + b + c) :
    (∀ p ∈ ([("긍정", round4 (a / (a + b + c))),
             ("부정", round4 (b / (a + b + c))),
             ("중립", round4 (c / (a + b + c)))] : List (String × ℚ)),
      0 ≤ p.2 ∧ p.2 ≤ 1) ∧
    |(([("긍정", round4 (a / (a + b + c))),
        ("부정", round4 (b / (a + b + c))),
        ("중립", round4 (c / (a + b + c)))] : List (String × ℚ)).map
        Prod.snd).sum - 1| ≤ 3/20000 := by
  have hb : ∀ x : ℚ, 0 ≤ x → x ≤ a + b + c →
      0 ≤ round4 (x / (a + b + c)) ∧ round4 (x / (a + b + c)) ≤ 1 := by
    intro x hx hxle
    exact ⟨round4_nonneg (div_nonneg hx hpos.le),
      round4_le_one ((div_le_one hpos).mpr hxle)⟩
  constructor
  · intro p hp
    simp only [List.mem_cons, List.not_mem_nil, or_false] at hp
    rcases hp with rfl | rfl | rfl
    · exact hb a ha0 (by linarith)
    · exact hb b hb0 (by linarith)
    · exact hb c hc0 (by linarith)
  · simp only [List.map_cons, List.map_nil, List.sum_cons, List.sum_nil,
      add_zero]
    have e1 := abs_round4_sub (a / (a + b + c))
    have e2 := abs_round4_sub (b / (a + b + c))
    have e3 := abs_round4_sub (c / (a + b + c))
    rw [abs_le] at e1 e2 e3
    have hsum1 : a / (a + b + c) + b / (a + b + c) + c / (a + b + c) = 1 := by
      rw [div_add_div_same, div_add_div_same, div_self hpos.ne']
    rw [abs_le]
    constructor <;> linarith [e1.1, e1.2, e2.1, e2.2, e3.1, e3.2]

end SentimentService

namespace SentimentService

/-- C2: for text longer than twice the model max length after whitespace
normalization, when at least one sentence is classified successfully (and
each classification score is a top-1 probability of the 3-class softmax,
hence in `[1/3, 1]`), the record of the long-text branch has every
renormalized per-label score in `[0, 1]`, the three scores sum to `1` up to
rounding (`±3/20000`), and the reported label is one with the highest
averaged pre-normalization score, that averaged score being the reported
confidence. -/
theorem long_text_averaging_props
    (analyzer : Oracle) (text : List Char)
    (hA : ∀ s l sc r, analyzer s = Except.ok ((l, sc) :: r) →
      1/3 ≤ sc ∧ sc ≤ 1)
    (hlen : 512 * 2 < (preprocessText text).length)
    (hvalid : 1 ≤ (longStateOf analyzer text).count) :
    (∀ p ∈ (analyze analyzer text).scores, 0 ≤ p.2 ∧ p.2 ≤ 1) ∧
    |((analyze analyzer text).scores.map Prod.snd).sum - 1| ≤ 3/20000 ∧
    (analyze analyzer text).confidence
      = max (avgOf (longStateOf analyzer text).pos
          (longStateOf analyzer text).count)
        (max (avgOf (longStateOf analyzer text).neg
            (longStateOf analyzer text).count)
          (avgOf (longStateOf analyzer text).neu
            (longStateOf analyzer text).count)) ∧
    (((analyze analyzer text).label = "긍정" ∧
        (analyze analyzer text).confidence
          = avgOf (longStateOf analyzer text).pos
              (longStateOf analyzer text).count) ∨
     ((analyze analyzer text).label = "부정" ∧
        (analyze analyzer text).confidence
          = avgOf (longStateOf analyzer text).neg
              (longStateOf analyzer text).count) ∨
     ((analyze analyzer text).label = "중립" ∧
        (analyze analyzer text).confidence
          = avgOf (longStateOf analyzer text).neu
              (longStateOf analyzer text).count)) := by
  have hcond : ¬(text = [] ∨ (pystrip text).length = 0) := by
    rintro (rfl | hws)
    · exact absurd hlen (by decide)
    · have hall := all_ws_of_pystrip_nil (List.length_eq_zero.mp hws)
      have hnil : pysplit text = [] := pysplit_nil_of_all_ws text hall
      have hpre : preprocessText text = [] := by
        unfold preprocessText normalizeWs
        rw [hnil]
        rfl
      rw [hpre] at hlen
      exact absurd hlen (by decide)
  have hbranch : analyze analyzer text
      = finalizeLong (longStateOf analyzer text) := by
    unfold analyze
    rw [if_neg hcond, if_pos hlen]
    rfl
  obtain ⟨h1, h2, h3, h4, h5⟩ : LongInv (longStateOf analyzer text) :=
    longFold_inv hA _
  have hn0 : (0:ℚ) < ((longStateOf analyzer text).count : ℚ) := by
    exact_mod_cast Nat.lt_of_lt_of_le Nat.zero_lt_one hvalid
  have hap0 : 0 ≤ avgOf (longStateOf analyzer text).pos
      (longStateOf analyzer text).count := by
    rw [avgOf_eq]
    exact round4_nonneg (div_nonneg h1 hn0.le)
  have han0 : 0 ≤ avgOf (longStateOf analyzer text).neg
      (longStateOf analyzer text).count := by
    rw [avgOf_eq]
    exact round4_nonneg (div_nonneg h2 hn0.le)
  have hau0 : 0 ≤ avgOf (longStateOf analyzer text).neu
      (longStateOf analyzer text).count := by
    rw [avgOf_eq]
    exact round4_nonneg (div_nonneg h3 hn0.le)
  have hdivsum : (longStateOf analyzer text).pos
        / ((longStateOf analyzer text).count : ℚ)
      + (longStateOf analyzer text).neg
        / ((longStateOf analyzer text).count : ℚ)
      + (longStateOf analyzer text).neu
        / ((longStateOf analyzer text).count : ℚ)
      = ((longStateOf analyzer text).pos + (longStateOf analyzer text).neg
          + (longStateOf analyzer text).neu)
        / ((longStateOf analyzer text).count : ℚ) := by
    rw [div_add_div_same, div_add_div_same]
  have hdivge : (1:ℚ)/3
      ≤ ((longStateOf analyzer text).pos + (longStateOf analyzer text).neg
          + (longStateOf analyzer text).neu)
        / ((longStateOf analyzer text).count : ℚ) := by
    have h13 : (((longStateOf analyzer text).count : ℚ)/3)
        / ((longStateOf analyzer text).count : ℚ) = 1/3 := by
      rw [div_right_comm, div_self hn0.ne']
    rw [← h13]
    gcongr
  have htotpos : 0 < avgOf (longStateOf analyzer text).pos
        (longStateOf analyzer text).count
      + avgOf (longStateOf analyzer text).neg
        (longStateOf analyzer text).count
      + avgOf (longStateOf analyzer text).neu
        (longStateOf analyzer text).count := by
    rw [avgOf_eq, avgOf_eq, avgOf_eq]
    have e1 := round4_ge ((longStateOf analyzer text).pos
      / ((longStateOf analyzer text).count : ℚ))
    have e2 := round4_ge ((longStateOf analyzer text).neg
      / ((longStateOf analyzer text).count : ℚ))
    have e3 := round4_ge ((longStateOf analyzer text).neu
      / ((longStateOf analyzer text).count : ℚ))
    have hc : (0:ℚ) < 1/3 - 3/20000 := by norm_num
    linarith [e1, e2, e3]
  have hfin := finalizeLong_explicit (longStateOf analyzer text)
    (by omega) htotpos
  rw [hbranch, hfin]
  obtain ⟨hrange, hsum⟩ := normalized_scores_props
    (avgOf (longStateOf analyzer text).pos (longStateOf analyzer text).count)
    (avgOf (longStateOf analyzer text).neg (longStateOf analyzer text).count)
    (avgOf (longStateOf analyzer text).neu (longStateOf analyzer text).count)
    hap0 han0 hau0 htotpos
  obtain ⟨hmax, hcases⟩ := maxLabel_spec
    (avgOf (longStateOf analyzer text).pos (longStateOf analyzer text).count)
    (avgOf (longStateOf analyzer text).neg (longStateOf analyzer text).count)
    (avgOf (longStateOf analyzer text).neu (longStateOf analyzer text).count)
  exact ⟨hrange, hsum, hmax, hcases⟩

end SentimentService

/-! ## Evaluation lemmas for a concrete long text -/

theorem foldr_pysplitStep_replicate {c : Char} (h : c.isWhitespace = false) :
    ∀ n, 1 ≤ n →
      (List.replicate n c).foldr pysplitStep [] = [List.replicate n c] := by
  intro n
  induction n with
  | zero => intro h0; omega
  | succ m ih =>
    intro _
    rcases Nat.eq_zero_or_pos m with rfl | hm
    · show (List.replicate 1 c).foldr pysplitStep [] = [List.replicate 1 c]
      simp [pysplitStep, h]
    · rw [List.replicate_succ, List.foldr_cons, ih hm]
      unfold pysplitStep
      rw [if_neg (by simp [h])]

theorem pysplit_replicate {c : Char} (h : c.isWhitespace = false) (n : ℕ)
    (hn : 1 ≤ n) : pysplit (List.replicate n c) = [List.replicate n c] := by
  unfold pysplit
  rw [foldr_pysplitStep_replicate h n hn]
  have hne : List.replicate n c ≠ [] := by
    apply List.ne_nil_of_length_pos
    rw [List.length_replicate]
    omega
  simp [hne]

theorem normalizeWs_replicate {c : Char} (h : c.isWhitespace = false) (n : ℕ)
    (hn : 1 ≤ n) : normalizeWs (List.replicate n c) = List.replicate n c := by
  unfold normalizeWs
  rw [pysplit_replicate h n hn]
  simp [List.intercalate]

theorem splitSentencesAux_no_ws :
    ∀ (l acc : List Char), (∀ c ∈ l, c.isWhitespace = false) →
      splitSentencesAux l acc = [acc.reverse ++ l] := by
  intro l
  induction l with
  | nil => intro acc _; simp [splitSentencesAux]
  | cons c rest ih =>
    intro acc h
    have hc : c.isWhitespace = false := h c (List.mem_cons_self c rest)
    unfold splitSentencesAux
    rw [if_neg (by simp [hc])]
    rw [ih (c :: acc) (fun d hd => h d (List.mem_cons_of_mem c hd))]
    simp

theorem splitSentences_no_ws (l : List Char)
    (h : ∀ c ∈ l, c.isWhitespace = false) : splitSentences l = [l] := by
  unfold splitSentences
  rw [splitSentencesAux_no_ws l [] h]
  rfl

theorem replicate_ga_no_ws (n : ℕ) :
    ∀ c ∈ List.replicate n '가', c.isWhitespace = false := by
  intro c hc
  rw [List.eq_of_mem_replicate hc]
  decide

namespace SentimentService

/-- Witness for C2: a 1030-character text with one long sentence, classified
positive with probability 1/2 by a concrete oracle. -/
theorem long_text_averaging_props_witness :
    (∀ p ∈ (analyze (fun _ => Except.ok [("positive", (1:ℚ)/2)]) (List.replicate 1030 '가')).scores, 0 ≤ p.2 ∧ p.2 ≤ 1) ∧
    |((analyze (fun _ => Except.ok [("positive", (1:ℚ)/2)]) (List.replicate 1030 '가')).scores.map Prod.snd).sum - 1| ≤ 3/20000 ∧
    (analyze (fun _ => Except.ok [("positive", (1:ℚ)/2)]) (List.replicate 1030 '가')).confidence
      = max (avgOf (longStateOf (fun _ => Except.ok [("positive", (1:ℚ)/2)]) (List.replicate 1030 '가')).pos (longStateOf (fun _ => Except.ok [("positive", (1:ℚ)/2)]) (List.replicate 1030 '가')).count)
        (max (avgOf (longStateOf (fun _ => Except.ok [("positive", (1:ℚ)/2)]) (List.replicate 1030 '가')).neg (longStateOf (fun _ => Except.ok [("positive", (1:ℚ)/2)]) (List.replicate 1030 '가')).count)
          (avgOf (longStateOf (fun _ => Except.ok [("positive", (1:ℚ)/2)]) (List.replicate 1030 '가')).neu (longStateOf (fun _ => Except.ok [("positive", (1:ℚ)/2)]) (List.replicate 1030 '가')).count)) ∧
    (((analyze (fun _ => Except.ok [("positive", (1:ℚ)/2)]) (List.replicate 1030 '가')).label = "긍정" ∧
        (analyze (fun _ => Except.ok [("positive", (1:ℚ)/2)]) (List.replicate 1030 '가')).confidence
          = avgOf (longStateOf (fun _ => Except.ok [("positive", (1:ℚ)/2)]) (List.replicate 1030 '가')).pos (longStateOf (fun _ => Except.ok [("positive", (1:ℚ)/2)]) (List.replicate 1030 '가')).count) ∨
     ((analyze (fun _ => Except.ok [("positive", (1:ℚ)/2)]) (List.replicate 1030 '가')).label = "부정" ∧
        (analyze (fun _ => Except.ok [("positive", (1:ℚ)/2)]) (List.replicate 1030 '가')).confidence
          = avgOf (longStateOf (fun _ => Except.ok [("positive", (1:ℚ)/2)]) (List.replicate 1030 '가')).neg (longStateOf (fun _ => Except.ok [("positive", (1:ℚ)/2)]) (List.replicate 1030 '가')).count) ∨
     ((analyze (fun _ => Except.ok [("positive", (1:ℚ)/2)]) (List.replicate 1030 '가')).label = "중립" ∧
        (analyze (fun _ => Except.ok [("positive", (1:ℚ)/2)]) (List.replicate 1030 '가')).confidence
          = avgOf (longStateOf (fun _ => Except.ok [("positive", (1:ℚ)/2)]) (List.replicate 1030 '가')).neu (longStateOf (fun _ => Except.ok [("positive", (1:ℚ)/2)]) (List.replicate 1030 '가')).count)) := by
  have hpre : preprocessText (List.replicate 1030 '가') = List.replicate 1030 '가' := by
    unfold preprocessText
    exact normalizeWs_replicate (by decide) 1030 (by omega)
  have hsplit : splitSentences (List.replicate 1030 '가') = [List.replicate 1030 '가'] :=
    splitSentences_no_ws _ (replicate_ga_no_ws 1030)
  have hst : longStateOf (fun _ => Except.ok [("positive", (1:ℚ)/2)]) (List.replicate 1030 '가') = ⟨0 + 1/2, 0, 0, 0 + 1⟩ := by
    unfold longStateOf
    rw [hpre, hsplit]
    unfold longFold
    rw [List.foldl_cons, List.foldl_nil]
    unfold longStep
    rw [pystrip_replicate (by decide) 1030, List.length_replicate,
      if_neg (by omega)]
    rfl
  apply long_text_averaging_props
  · intro s l sc r h
    simp only [Except.ok.injEq, List.cons.injEq, Prod.mk.injEq] at h
    obtain ⟨⟨hl, hsc⟩, hr⟩ := h
    subst hsc
    norm_num
  · rw [hpre, List.length_replicate]
    norm_num
  · rw [hst]

end SentimentService
